import Mathlib

/-!
Verification of the grafana-reporter metric-resolution core.

Shallow embedding of `src/report/prometheus_utils.py`,
`src/report/recording_rule_backfill.py` and the table-merge step of
`src/report/report.py`.

Modelling conventions:
* Python `datetime` values are embedded as `PyDateTime` records carrying
  calendar fields at second resolution (every datetime the code builds has
  `microsecond == 0`, see `parse_grafana_time`); `dateutil.relativedelta`
  arithmetic is embedded through proleptic-Gregorian day counting.
* Sample values are embedded as rationals (`Rat`); the code parses them with
  `float(...)` and the claims under study only exercise exact arithmetic.
* A Prometheus `query_range` response is the `data.result` list of series.
  The query backend (the network) is a parameter `backend : String → PromResult`
  giving, for the time window of the call, the response to each query text;
  `start`/`end`/`step` are threaded through the Python code unchanged, so a
  fixed window is captured inside `backend`.
* Python dicts that the code iterates are embedded as association lists in
  insertion order (first binding wins on lookup, as in a dict).
-/

/-- Naive Python `datetime` at second resolution (the code always clears
`microsecond`). -/
structure PyDateTime where
  year : Int
  month : Int
  day : Int
  hour : Int
  minute : Int
  second : Int
deriving DecidableEq, Repr

/-- Day count of a proleptic-Gregorian civil date from the epoch 1970-01-01. -/
def daysFromCivil (y m d : Int) : Int :=
  let yy := if m ≤ 2 then y - 1 else y
  let era := Int.ediv (if 0 ≤ yy then yy else yy - 399) 400
  let yoe := yy - era * 400
  let mp := Int.emod (m + 9) 12
  let doy := Int.ediv (153 * mp + 2) 5 + d - 1
  let doe := yoe * 365 + Int.ediv yoe 4 - Int.ediv yoe 100 + doy
  era * 146097 + doe - 719468

/-- Civil date (year, month, day) of a day count from the epoch 1970-01-01. -/
def civilFromDays (z0 : Int) : Int × Int × Int :=
  let z := z0 + 719468
  let era := Int.ediv (if 0 ≤ z then z else z - 146096) 146097
  let doe := z - era * 146097
  let yoe := Int.ediv (doe - Int.ediv doe 1460 + Int.ediv doe 36524 - Int.ediv doe 146096) 365
  let y := yoe + era * 400
  let doy := doe - (365 * yoe + Int.ediv yoe 4 - Int.ediv yoe 100)
  let mp := Int.ediv (5 * doy + 2) 153
  let d := doy - Int.ediv (153 * mp + 2) 5 + 1
  let m := mp + (if mp < 10 then 3 else -9)
  (if m ≤ 2 then y + 1 else y, m, d)

/-- Seconds since the epoch of a `PyDateTime`. -/
def toEpochSeconds (dt : PyDateTime) : Int :=
  daysFromCivil dt.year dt.month dt.day * 86400 + dt.hour * 3600 + dt.minute * 60 + dt.second

/-- The `PyDateTime` of a count of seconds since the epoch. -/
def fromEpochSeconds (s : Int) : PyDateTime :=
  let days := Int.ediv s 86400
  let rem := Int.emod s 86400
  let c := civilFromDays days
  { year := c.1, month := c.2.1, day := c.2.2,
    hour := Int.ediv rem 3600, minute := Int.ediv (Int.emod rem 3600) 60,
    second := Int.emod rem 60 }

/-- Embedding of `dt - relativedelta(seconds=n)` (also used, scaled, for
minutes, hours, days and weeks, which `relativedelta` treats as exact spans). -/
def subSeconds (dt : PyDateTime) (n : Int) : PyDateTime :=
  fromEpochSeconds (toEpochSeconds dt - n)

/-- Gregorian leap-year test. -/
def isLeapYear (y : Int) : Bool :=
  (Int.emod y 4 == 0 && Int.emod y 100 != 0) || Int.emod y 400 == 0

/-- Number of days in a month. -/
def daysInMonth (y m : Int) : Int :=
  if m = 2 then (if isLeapYear y then 29 else 28)
  else if m = 4 ∨ m = 6 ∨ m = 9 ∨ m = 11 then 30
  else 31

/-- Embedding of `dt - relativedelta(months=n)`: shift the (year, month) pair
and clamp the day to the target month's length, times unchanged. -/
def subMonths (dt : PyDateTime) (n : Int) : PyDateTime :=
  let total := dt.year * 12 + (dt.month - 1) - n
  let y := Int.ediv total 12
  let m := Int.emod total 12 + 1
  { dt with year := y, month := m, day := min dt.day (daysInMonth y m) }

/-- Embedding of Python `datetime.weekday()`: Monday = 0 (1970-01-01 was a
Thursday). -/
def pyWeekday (dt : PyDateTime) : Int :=
  Int.emod (daysFromCivil dt.year dt.month dt.day + 3) 7

/-- Embedding of Python `str.endswith` (kernel-computable). -/
def strEndsWith (s suffix : String) : Bool :=
  s.data.reverse.take suffix.data.length = suffix.data.reverse

/-- Embedding of Python `str.replace` for a nonempty pattern: replace every
non-overlapping occurrence, scanning left to right. The structural `fuel`
argument bounds the scan position; with `fuel = s.length` it is never
exhausted, since every step consumes at least one character. -/
def replaceCharsAux (fuel : Nat) (s pat rep : List Char) : List Char :=
  match fuel, s with
  | _, [] => []
  | 0, s => s
  | fuel + 1, c :: cs =>
    if pat ≠ [] ∧ (c :: cs).take pat.length = pat then
      rep ++ replaceCharsAux fuel ((c :: cs).drop pat.length) pat rep
    else
      c :: replaceCharsAux fuel cs pat rep

/-- String wrapper for `replaceCharsAux`. -/
def pyReplace (s pat rep : String) : String :=
  ⟨replaceCharsAux s.data.length s.data pat.data rep.data⟩

/-- Value of a digit character. -/
def digitVal (c : Char) : Nat := c.toNat - 48

/-- Numeric value of a digit string. -/
def natOfDigits (l : List Char) : Nat :=
  l.foldl (fun acc c => acc * 10 + digitVal c) 0

/-- Embedding of `re.match(r"now-(\d+)([smhdwM])", time_str)` from
`prometheus_utils.parse_grafana_time`: a prefix match, greedy on the digit
group, whose second group is a single unit character. -/
def matchNowMinus (time_str : String) : Option (Nat × Char) :=
  let cs := time_str.data
  if cs.take 4 = "now-".data then
    let rest := cs.drop 4
    let digits := rest.takeWhile Char.isDigit
    if digits.isEmpty then none
    else
      match rest.drop digits.length with
      | [] => none
      | u :: _ =>
        if u = 's' ∨ u = 'm' ∨ u = 'h' ∨ u = 'd' ∨ u = 'w' ∨ u = 'M' then
          some (natOfDigits digits, u)
        else none
  else none

/-- Embedding of `prometheus_utils.parse_grafana_time`, with the ambient
`datetime.utcnow().replace(microsecond=0)` passed in as `now`. -/
def parse_grafana_time (now : PyDateTime) (time_str : String) : PyDateTime :=
  if time_str = "now" then now
  else
    let dt :=
      match matchNowMinus time_str with
      | some (v, u) =>
        if u = 's' then subSeconds now (v : Int)
        else if u = 'm' then subSeconds now (60 * (v : Int))
        else if u = 'h' then subSeconds now (3600 * (v : Int))
        else if u = 'd' then subSeconds now (86400 * (v : Int))
        else if u = 'w' then subSeconds now (604800 * (v : Int))
        else subMonths now (v : Int)
      | none => now
    if strEndsWith time_str "/M" then
      { dt with day := 1, hour := 0, minute := 0, second := 0 }
    else if strEndsWith time_str "/d" then
      { dt with hour := 0, minute := 0, second := 0 }
    else if strEndsWith time_str "/w" then
      let dt2 := subSeconds dt (86400 * pyWeekday dt)
      { dt2 with hour := 0, minute := 0, second := 0 }
    else dt

/-- Embedding of `prometheus_utils.compute_prometheus_duration`.
`int(delta.total_seconds() / 3600)` truncates toward zero (`Int.div`); at the
magnitudes of epoch differences the float division is exact enough that the
truncation of the float equals the truncation of the rational. -/
def compute_prometheus_duration (start stop : PyDateTime) : String :=
  let delta := toEpochSeconds stop - toEpochSeconds start
  toString (Int.tdiv delta 3600) ++ "h"

/-- Embedding of `prometheus_utils.resolve_grafana_vars` (the copy imported by
`report.py`; `grafana_utils.py` holds a behaviourally identical duplicate).
`variables` is the dict in insertion order; `value` is falsy exactly when it is
the empty string. -/
def resolve_grafana_vars (query : String) (varMap : List (String × String))
    (start stop : PyDateTime) : String :=
  let q := varMap.foldl (fun q p =>
    let value := if p.2 = "" ∨ p.2 = "$__all" ∨ p.2 = "['$__all']" then ".*" else p.2
    pyReplace (pyReplace q ("$" ++ p.1) value) ("$\x7b" ++ p.1 ++ "\x7d") value) query
  pyReplace q "$__range" (compute_prometheus_duration start stop)

/-- One series of a Prometheus `query_range` response: its label set (in
insertion order) and its `values` list of (timestamp, parsed value) samples. -/
structure PromSeries where
  metric : List (String × String)
  values : List (Int × Rat)
deriving DecidableEq, Repr

/-- A Prometheus response body: the `data.result` list of series. -/
structure PromResult where
  result : List PromSeries
deriving DecidableEq, Repr

/-- Embedding of `dict.get(key, default)` on a label set. -/
def labelGet (labels : List (String × String)) (k dflt : String) : String :=
  match labels.lookup k with
  | some v => v
  | none => dflt

/-- One row of the tabular projection: the two group labels and the value held
in the single value column. -/
structure TRow where
  project : String
  department : String
  value : Rat
deriving DecidableEq, Repr

/-- A single-value-column DataFrame as built by the backfiller: its columns are
`["project", "department", valueCol]` and its rows. -/
structure RuleDf where
  valueCol : String
  rows : List TRow
deriving DecidableEq, Repr

/-- Loop body of `RecordingRuleBackfill._prometheus_result_to_df`: a series
with samples yields one row (labels defaulting to "unknown", value from the
last sample); a series without samples yields none. -/
def seriesToRow (r : PromSeries) : Option TRow :=
  match r.values.getLast? with
  | some s => some { project := labelGet r.metric "project" "unknown",
                     department := labelGet r.metric "department" "unknown",
                     value := s.2 }
  | none => none

/-- Embedding of `RecordingRuleBackfill._prometheus_result_to_df`: one row per
series that has samples (`seriesToRow`), and a single zero row for
`{unknown, unknown}` when no series had data. -/
def prometheus_result_to_df (results : PromResult) (column_name : String) : RuleDf :=
  let rows := results.result.filterMap seriesToRow
  if rows.isEmpty then
    { valueCol := column_name,
      rows := [{ project := "unknown", department := "unknown", value := 0 }] }
  else { valueCol := column_name, rows := rows }

/-- Start-of-identifier character class of `extract_metric`'s regex:
`[a-zA-Z_:]`. -/
def identStartChar (c : Char) : Bool :=
  c.isAlpha || c = '_' || c = ':'

/-- Continuation character class of `extract_metric`'s regex:
`[a-zA-Z0-9_:]`. -/
def identChar (c : Char) : Bool :=
  c.isAlphanum || c = '_' || c = ':'

/-- ASCII whitespace, the `\s` class on the ASCII strings in play. -/
def pyWhitespace (c : Char) : Bool :=
  c = ' ' || c = '\t' || c = '\n' || c = '\r' || c = '\x0b' || c = '\x0c'

/-- Embedding of `re.findall(r'([a-zA-Z_:][a-zA-Z0-9_:]*)\s*(?:[{(])', expr)`
from `prometheus_utils.extract_metric`: every maximal identifier that is
followed, after optional whitespace, by `{` or `(`; scanning resumes after the
bracket of a successful match and one character onward otherwise, exactly as
the regex engine's non-overlapping scan does. -/
def findCallsAux (fuel : Nat) (s : List Char) : List String :=
  match fuel, s with
  | _, [] => []
  | 0, _ => []
  | fuel + 1, c :: cs =>
    if identStartChar c then
      let tok := (c :: cs).takeWhile identChar
      let rest := ((c :: cs).dropWhile identChar).dropWhile pyWhitespace
      match rest with
      | b :: bs =>
        if b = '\x7b' ∨ b = '(' then String.mk tok :: findCallsAux fuel bs
        else findCallsAux fuel cs
      | [] => findCallsAux fuel cs
    else findCallsAux fuel cs

/-- Entry point of the scan; `fuel = s.length` suffices since every step of
`findCallsAux` consumes at least one character. -/
def findCalls (s : List Char) : List String :=
  findCallsAux s.length s

/-- The aggregation/range function names `extract_metric` skips. -/
def promql_functions : List String :=
  ["sum", "avg", "min", "max", "count", "stddev", "stdvar",
   "rate", "irate", "increase", "delta", "idelta",
   "sum_over_time", "avg_over_time", "min_over_time", "max_over_time",
   "quantile_over_time", "count_over_time", "last_over_time"]

/-- Embedding of `token.split(":")[0]`. -/
def splitColonHead (t : String) : String :=
  String.mk (t.data.takeWhile (fun c => c ≠ ':'))

/-- Embedding of `re.sub(r'_per_[a-zA-Z0-9]+$', '', token)`: strip a trailing
`_per_<alnum>` suffix when the alphanumeric run reaches the end of the
string. -/
def stripPerSuffix (t : String) : String :=
  let s := t.data
  let revSuf := s.reverse.takeWhile Char.isAlphanum
  if revSuf ≠ [] ∧ (s.reverse.drop revSuf.length).take 5 = ['_', 'r', 'e', 'p', '_'] then
    String.mk (s.take (s.length - revSuf.length - 5))
  else t

/-- Embedding of Python `str.title()` for ASCII: a letter is uppercased when
the previous character is not a letter and lowercased otherwise. -/
def pyTitleAux : List Char → Bool → List Char
  | [], _ => []
  | c :: cs, prevCased =>
    (if c.isAlpha then (if prevCased then c.toLower else c.toUpper) else c) ::
      pyTitleAux cs c.isAlpha

/-- String wrapper for `pyTitleAux`. -/
def pyTitle (s : String) : String :=
  String.mk (pyTitleAux s.data false)

/-- Embedding of `prometheus_utils.extract_metric`. -/
def extract_metric (expr : String) : String :=
  let found := findCalls expr.data
  if found.isEmpty then "Unknown Metric"
  else
    match found.find? (fun t => !(promql_functions.contains t)) with
    | some token =>
      let token := splitColonHead token
      let token := stripPerSuffix token
      pyTitle (String.mk (token.data.map (fun c => if c = '_' then ' ' else c)))
    | none => "Unknown Metric"

/-- Word character of the regex `\b` assertion (ASCII `\w`). -/
def wordChar (c : Char) : Bool :=
  c.isAlphanum || c = '_'

/-- Word-ness of an optional character; ends of the string count as
non-word. -/
def wordOpt : Option Char → Bool
  | some c => wordChar c
  | none => false

/-- There is a `\b` boundary of `re` at position `i` of `s`: the characters on
the two sides of the position differ in word-ness. -/
def boundaryAt (s : List Char) (i : Nat) : Bool :=
  wordOpt (if i = 0 then none else s[i - 1]?) != wordOpt s[i]?

/-- The literal pattern `pat`, wrapped in `\b ... \b`, matches `s` at
position `i`. -/
def matchWordAt (s pat : List Char) (i : Nat) : Bool :=
  ((s.drop i).take pat.length == pat) && boundaryAt s i && boundaryAt s (i + pat.length)

/-- Embedding of the `re.search` in `_find_dependencies`, whose pattern is the
`re.escape`d rule name wrapped in word-boundary assertions: the escaped rule
name is a literal, so the search succeeds exactly when some position of `expr`
carries a boundary-delimited occurrence. -/
def searchWord (pat s : List Char) : Bool :=
  (List.range (s.length + 1)).any (fun i => matchWordAt s pat i)

/-- Embedding of `RecordingRuleBackfill._find_dependencies`: the rule mapping's
keys (a dict in insertion order, keys distinct) whose word-bounded occurrence
is found in the expression. -/
def find_dependencies (rules : List (String × String)) (expr : String) : List String :=
  (rules.map Prod.fst).filter (fun r => searchWord r.data expr.data)

/-- Specification-side predicate for claim C8: the rule name occurs in the
expression text as an exact word, i.e. as a contiguous substring delimited on
both sides by a word/non-word transition (or a string end adjoining a word
character). -/
def occursAsWord (r expr : String) : Prop :=
  ∃ pre post : List Char,
    expr.data = pre ++ r.data ++ post ∧
    (wordOpt pre.getLast? ≠ wordOpt (r.data ++ post).head?) ∧
    (wordOpt (pre ++ r.data).getLast? ≠ wordOpt post.head?)

deriving instance DecidableEq for Except

/-- Empty Prometheus response: `{"data": {"result": []}}`. -/
def emptyProm : PromResult := ⟨[]⟩

/-- Embedding of `re.search(r"/\s*([\d\.]+)", expr)` from
`recompute_rule_for_timeframe`: first `/` that is followed, after optional
whitespace, by a nonempty run of digits and dots; returns that run. -/
def scanDivisor (fuel : Nat) (s : List Char) : Option (List Char) :=
  match fuel, s with
  | _, [] => none
  | 0, _ => none
  | fuel + 1, c :: cs =>
    if c = '/' then
      let digits := (cs.dropWhile pyWhitespace).takeWhile (fun d => d.isDigit || d = '.')
      if digits.isEmpty then scanDivisor fuel cs else some digits
    else scanDivisor fuel cs

/-- Embedding of Python `float(...)` on a string of digits and dots: accepts
`digits`, `digits.`, `.digits`, `digits.digits`; `none` models the
`ValueError` that any other shape (e.g. two dots) raises. -/
def parsePyFloat (s : List Char) : Option Rat :=
  let intPart := s.takeWhile Char.isDigit
  match s.drop intPart.length with
  | [] => if intPart.isEmpty then none else some (natOfDigits intPart : Rat)
  | '.' :: frac =>
    if frac.all Char.isDigit ∧ ¬(intPart.isEmpty ∧ frac.isEmpty) then
      some ((natOfDigits intPart : Rat) + (natOfDigits frac : Rat) / ((10 : Rat) ^ frac.length))
    else none
  | _ => none

/-- Sequence dependency results as Python's sequential recursion does: the
first non-returning call (`none`, i.e. out of fuel) or raised exception
(`Except.error`) cuts the rest. -/
def seqExcept {α : Type} : List (Option (Except Unit α)) → Option (Except Unit (List α))
  | [] => some (.ok [])
  | x :: xs =>
    match x with
    | none => none
    | some (.error e) => some (.error e)
    | some (.ok a) =>
      match seqExcept xs with
      | none => none
      | some (.error e) => some (.error e)
      | some (.ok l) => some (.ok (a :: l))

/-- Embedding of `RecordingRuleBackfill.recompute_rule_for_timeframe`.
The Python recursion carries no visited set and is unbounded; `fuel` bounds
the modelled recursion depth, `none` meaning the call does not return within
`fuel` nested calls (so divergence is `∀ fuel, · = none`). `Except.error ()`
models a raised `ValueError` from `float(...)` on a malformed divisor.
`rules` is the `rules_map` dict in insertion order with distinct keys;
`backend` is `query_prometheus_range` for the (fixed) window and step, which
the code passes through unchanged. -/
def recompute_fuel (rules : List (String × String)) (backend : String → PromResult) :
    Nat → String → Option (Except Unit RuleDf)
  | 0, _ => none
  | fuel + 1, rule_name =>
    match rules.lookup rule_name with
    | none => some (.ok { valueCol := rule_name, rows := [] })
    | some expr =>
      let deps := find_dependencies rules expr
      if deps.isEmpty then
        some (.ok (prometheus_result_to_df (backend expr) rule_name))
      else
        match seqExcept (deps.map (fun d => recompute_fuel rules backend fuel d)) with
        | none => none
        | some (.error e) => some (.error e)
        | some (.ok depDfs) =>
          match depDfs with
          | [] => some (.error ())
          | df0 :: _ =>
            let df : RuleDf := { valueCol := rule_name, rows := df0.rows }
            match scanDivisor expr.data.length expr.data with
            | none => some (.ok df)
            | some digits =>
              match parsePyFloat digits with
              | none => some (.error ())
              | some divisor =>
                some (.ok { df with
                  rows := df.rows.map (fun r => { r with value := r.value / divisor }) })

/-- Embedding of `re.findall(r"[a-zA-Z0-9_:]+", expr)` from
`backfill_rule_recursive`: the maximal runs of identifier characters. -/
def promTokens (fuel : Nat) (s : List Char) : List String :=
  match fuel, s with
  | _, [] => []
  | 0, _ => []
  | fuel + 1, c :: cs =>
    if identChar c then
      String.mk ((c :: cs).takeWhile identChar) ::
        promTokens fuel ((c :: cs).dropWhile identChar)
    else promTokens fuel cs

/-- Modelled from the spec: `RecordingRuleBackfill.backfill_rule` is called at
the end of `backfill_rule_recursive` but its definition is missing from the
sources under study (only this caller exists). Per the spec's Backfill Engine
contract it "recomputes [the rule] from its defining expression, and returns an
equivalent result structure to the Range Query Client's output": it executes
the rule's defining expression against the backend for the given window and
returns the response body. -/
def backfill_rule (rules : List (String × String)) (backend : String → PromResult)
    (record_name : String) : PromResult :=
  match rules.lookup record_name with
  | some expr => backend expr
  | none => emptyProm

/-- Embedding of `RecordingRuleBackfill.backfill_rule_recursive`. The shared
mutable `visited` set is threaded explicitly (membership is what the code
tests; insertion order of the list is irrelevant); the returned pair is the
Python return value together with the final state of `visited`. `fuel` bounds
the recursion depth as in `recompute_fuel`; the visited-set guard makes a
sufficiently large `fuel` (any bound above the number of rules) never run
out. -/
def backfill_fuel (rules : List (String × String)) (backend : String → PromResult) :
    Nat → String → List String → Option (PromResult × List String)
  | 0, _, _ => none
  | fuel + 1, record_name, visited =>
    if visited.contains record_name then some (emptyProm, visited)
    else
      match rules.lookup record_name with
      | none => some (emptyProm, visited)
      | some expr =>
        let visited1 := record_name :: visited
        let deps := (promTokens expr.data.length expr.data).filter
          (fun tok => (rules.lookup tok).isSome && tok != record_name)
        let visited2 := deps.foldl (fun vOpt d =>
          match vOpt with
          | none => none
          | some v =>
            match backfill_fuel rules backend fuel d v with
            | none => none
            | some (_, v') => some v') (some visited1)
        match visited2 with
        | none => none
        | some vfinal => some (backfill_rule rules backend record_name, vfinal)

/-- A row of a panel's accumulated table: the two group keys and the value
cells, one per value column in column order; `none` is pandas `NaN`. -/
structure PanelRow where
  project : String
  department : String
  cells : List (String × Option Rat)
deriving DecidableEq, Repr

/-- A panel's accumulated DataFrame: its value columns (besides `project` and
`department`) in order, and its rows. -/
structure PanelDf where
  cols : List String
  rows : List PanelRow
deriving DecidableEq, Repr

/-- The single-value-column DataFrame a query expression contributes, as a
panel table. -/
def toPanelDf (df : RuleDf) : PanelDf :=
  { cols := [df.valueCol],
    rows := df.rows.map (fun r =>
      { project := r.project, department := r.department,
        cells := [(df.valueCol, some r.value)] }) }

/-- Join key of a row. -/
def rowKey (r : PanelRow) : String × String := (r.project, r.department)

/-- Pandas suffixing of overlapping non-key column names in a merge (default
suffixes `_x`/`_y`): a cell's column is renamed when the other side also has
that column. -/
def renameCells (cs : List (String × Option Rat)) (other : List String) (suf : String) :
    List (String × Option Rat) :=
  cs.map (fun p => (if other.contains p.1 then p.1 ++ suf else p.1, p.2))

/-- Rows an outer merge produces for one left row `r1`: one joined row per
key-matching right row, or `r1` alone with `NaN` right cells when no right row
matches. -/
def mergeRight (rrows : List PanelRow) (rcols : List String) (r1 : PanelRow) :
    List PanelRow :=
  let ms := rrows.filter (fun r2 => rowKey r2 = rowKey r1)
  if ms.isEmpty then
    [{ r1 with cells := r1.cells ++ rcols.map (fun c => (c, none)) }]
  else ms.map (fun r2 => { r1 with cells := r1.cells ++ r2.cells })

/-- Embedding of `pd.merge(t1, t2, on=["project", "department"], how="outer")`
from `report.py`: every left row joined with each key-matching right row (left
rows without a match keep `NaN` right cells, see `mergeRight`), followed by
the right rows with no left match (`NaN` left cells); overlapping value-column
names get the `_x`/`_y` suffixes. Row order of an outer merge is a pandas
artifact (pandas sorts the keys); the claims under study only depend on
contents, and on their inputs the orders coincide. -/
def mergeOuter (t1 t2 : PanelDf) : PanelDf :=
  let lcols := t1.cols.map (fun c => if t2.cols.contains c then c ++ "_x" else c)
  let rcols := t2.cols.map (fun c => if t1.cols.contains c then c ++ "_y" else c)
  let lrows := t1.rows.map (fun r => { r with cells := renameCells r.cells t2.cols "_x" })
  let rrows := t2.rows.map (fun r => { r with cells := renameCells r.cells t1.cols "_y" })
  { cols := lcols ++ rcols,
    rows :=
      lrows.flatMap (mergeRight rrows rcols)
      ++ (rrows.filter (fun r2 => lrows.all (fun r1 => rowKey r1 != rowKey r2))).map
          (fun r2 => { r2 with cells := lcols.map (fun c => (c, none)) ++ r2.cells }) }

/-- Embedding of `panel_df.fillna(0)`: every absent cell becomes zero. -/
def fillZero (t : PanelDf) : PanelDf :=
  { t with rows := t.rows.map (fun r =>
      { r with cells := r.cells.map (fun p => (p.1, some (p.2.getD 0))) }) }

/-- Embedding of the per-panel merge loop of `report.process_report` (lines
108-115): `panel_df` starts as the first expression's table, each further
expression's table is outer-merged onto it, and `fillna(0)` runs once after
all expressions are merged. `none` models a panel with no query
expressions (where `panel_df` stays `None`). -/
def merge_expression_tables : List PanelDf → Option PanelDf
  | [] => none
  | t :: ts => some (fillZero (ts.foldl mergeOuter t))

example : merge_expression_tables
    [⟨["X"], [⟨"p1", "d1", [("X", some 5)]⟩]⟩,
     ⟨["Y"], [⟨"p1", "d1", [("Y", some 7)]⟩]⟩,
     ⟨["X"], [⟨"p2", "d2", [("X", some 3)]⟩]⟩]
    = some ⟨["X_x", "Y", "X_y"],
        [⟨"p1", "d1", [("X_x", some 5), ("Y", some 7), ("X_y", some 0)]⟩,
         ⟨"p2", "d2", [("X_x", some 0), ("Y", some 0), ("X_y", some 3)]⟩]⟩ := by
  decide

example : recompute_fuel [("A", "B"), ("B", "A")] (fun _ => emptyProm) 5 "A" = none := by
  decide

example : backfill_fuel [("A", "B"), ("B", "A")] (fun _ => emptyProm) 3 "A" []
    = some (emptyProm, ["B", "A"]) := by
  decide

example : extract_metric "sum(rate(runai_used_cpu_cores_per_pod[5m]))" = "Unknown Metric" := by
  decide

example : extract_metric "sum(rate(runai_used_cpu_cores_per_pod\x7b\x7d[5m]))" = "Runai Used Cpu Cores" := by
  decide

example : searchWord "cpu".data "cpu_total + 1".data = false := by decide

example : searchWord "cpu".data "sum(cpu) / 2".data = true := by decide

example : parse_grafana_time ⟨2026, 10, 12, 13, 45, 7⟩ "garbage/M" = ⟨2026, 10, 1, 0, 0, 0⟩ := by
  decide

example : parse_grafana_time ⟨2026, 10, 12, 13, 45, 7⟩ "now-2h" = ⟨2026, 10, 12, 11, 45, 7⟩ := by
  decide

example : compute_prometheus_duration ⟨2026, 10, 12, 0, 0, 0⟩ ⟨2026, 10, 12, 7, 30, 0⟩ = "7h" := by
  decide

/-! ## Claim theorems -/

/-- C7: for all resolved timestamps `a ≤ b`, `compute_prometheus_duration`
returns `"<H>h"` with `H = ⌊(b − a in seconds) / 3600⌋`. -/
theorem compute_duration_floor_hours (a b : PyDateTime)
    (h : toEpochSeconds a ≤ toEpochSeconds b) :
    compute_prometheus_duration a b =
      toString (Int.ediv (toEpochSeconds b - toEpochSeconds a) 3600) ++ "h" := by
  show toString (Int.tdiv (toEpochSeconds b - toEpochSeconds a) 3600) ++ "h" = _
  rw [show Int.tdiv (toEpochSeconds b - toEpochSeconds a) 3600
      = Int.ediv (toEpochSeconds b - toEpochSeconds a) 3600 from by
    rw [Int.tdiv_eq_ediv (by omega) (by omega)]; rfl]

/-- Witness for C7 at a concrete pair of timestamps 7.5 hours apart. -/
theorem compute_duration_floor_hours_witness :
    compute_prometheus_duration ⟨2026, 10, 12, 0, 0, 0⟩ ⟨2026, 10, 12, 7, 30, 0⟩ = "7h" := by
  have h := compute_duration_floor_hours ⟨2026, 10, 12, 0, 0, 0⟩ ⟨2026, 10, 12, 7, 30, 0⟩
    (by decide)
  rw [h]; decide

/-- C9: a rule name absent from the loaded rule mapping makes both
`recompute_rule_for_timeframe` (an empty table that still carries the value
column) and `backfill_rule_recursive` (the empty series result) return empty
without an exception, at any recursion depth, so the caller continues. -/
theorem missing_rule_returns_empty (rules : List (String × String))
    (backend : String → PromResult) (fuel : Nat) (rule : String) (visited : List String)
    (h : rules.lookup rule = none) :
    recompute_fuel rules backend (fuel + 1) rule = some (.ok { valueCol := rule, rows := [] }) ∧
    backfill_fuel rules backend (fuel + 1) rule visited = some (emptyProm, visited) := by
  constructor
  · simp [recompute_fuel, h]
  · simp only [backfill_fuel]
    by_cases hv : visited.contains rule
    · rw [if_pos hv]
    · rw [if_neg hv, h]

/-- Witness for C9: the unknown rule name `nope` resolves to empty results. -/
theorem missing_rule_returns_empty_witness :
    recompute_fuel [("A", "B")] (fun _ => emptyProm) 1 "nope"
      = some (.ok { valueCol := "nope", rows := [] }) ∧
    backfill_fuel [("A", "B")] (fun _ => emptyProm) 1 "nope" [] = some (emptyProm, []) :=
  missing_rule_returns_empty [("A", "B")] (fun _ => emptyProm) 0 "nope" [] (by decide)

/-- C10: variable substitution is plain textual replacement in mapping
iteration order; with variables `a` and `abc` (in that order), the `$a`
replacement fires inside `$abc` and corrupts it (`rate(AVbc[5m])` instead of
substituting `abc`'s own value `BV`), while every occurrence of a placeholder
is replaced. -/
theorem resolve_vars_prefix_corruption :
    resolve_grafana_vars "rate($abc[5m])" [("a", "AV"), ("abc", "BV")]
      ⟨2026, 1, 1, 0, 0, 0⟩ ⟨2026, 1, 1, 0, 0, 0⟩ = "rate(AVbc[5m])" ∧
    resolve_grafana_vars "$a+$a" [("a", "AV")]
      ⟨2026, 1, 1, 0, 0, 0⟩ ⟨2026, 1, 1, 0, 0, 0⟩ = "AV+AV" := by
  decide

/-- C2 counterexample: on the claim's expression the metric identifier is
followed by `[`, which the capture regex does not accept, so `extract_metric`
returns the fallback "Unknown Metric", not "Runai Used Cpu Cores". -/
theorem extract_metric_range_selector_counterexample :
    extract_metric "sum(rate(runai_used_cpu_cores_per_pod[5m]))" = "Unknown Metric" ∧
    ¬ (extract_metric "sum(rate(runai_used_cpu_cores_per_pod[5m]))" = "Runai Used Cpu Cores") := by
  decide

/-- C2 amended: when the metric identifier is followed by a label selector
brace (as the capture regex `[a-zA-Z_:][a-zA-Z0-9_:]*\s*[{(]` requires),
`sum` and `rate` are skipped, the `_per_pod` suffix is stripped and the
remaining tokens are title-cased. -/
theorem extract_metric_label_selector :
    extract_metric "sum(rate(runai_used_cpu_cores_per_pod\x7b\x7d[5m]))"
      = "Runai Used Cpu Cores" := by
  decide

/-- C6 counterexample: `garbage/M` matches none of the recognized forms, yet
`parse_grafana_time` does not resolve it to `now`: the truncation suffix is
applied to the fallback, yielding the start of the current month. -/
theorem parse_time_truncation_counterexample :
    parse_grafana_time ⟨2026, 10, 12, 13, 45, 7⟩ "garbage/M" = ⟨2026, 10, 1, 0, 0, 0⟩ ∧
    ¬ (parse_grafana_time ⟨2026, 10, 12, 13, 45, 7⟩ "garbage/M"
        = ⟨2026, 10, 12, 13, 45, 7⟩) := by
  decide

/-- C6 amended: an expression that is not `now`, does not match the
`now-<N><unit>` prefix pattern, and does not end in a truncation suffix
`/M`, `/d` or `/w`, resolves to the current time `now`; unrecognized
expressions that do end in a truncation suffix resolve to `now` truncated to
that period instead. -/
theorem parse_time_unrecognized_fallback (now : PyDateTime) (s : String)
    (h1 : s ≠ "now") (h2 : matchNowMinus s = none)
    (h3 : strEndsWith s "/M" = false) (h4 : strEndsWith s "/d" = false)
    (h5 : strEndsWith s "/w" = false) :
    parse_grafana_time now s = now := by
  simp [parse_grafana_time, h1, h2, h3, h4, h5]

/-- Witness for C6's amended theorem at the unrecognized expression
`tomorrow`. -/
theorem parse_time_unrecognized_fallback_witness :
    parse_grafana_time ⟨2026, 10, 12, 13, 45, 7⟩ "tomorrow" = ⟨2026, 10, 12, 13, 45, 7⟩ :=
  parse_time_unrecognized_fallback ⟨2026, 10, 12, 13, 45, 7⟩ "tomorrow"
    (by decide) (by decide) (by decide) (by decide) (by decide)

/-- Every row `mergeRight` produces carries the left row's join key. -/
lemma rowKey_of_mem_mergeRight (rr : List PanelRow) (rc : List String) (r1 r : PanelRow)
    (h : r ∈ mergeRight rr rc r1) : rowKey r = rowKey r1 := by
  simp only [mergeRight] at h
  split at h
  · simp only [List.mem_singleton] at h
    subst h; rfl
  · simp only [List.mem_map] at h
    obtain ⟨r2, -, rfl⟩ := h
    rfl

/-- `mergeRight` always produces at least one row, keyed by the left row. -/
lemma exists_mem_mergeRight (rr : List PanelRow) (rc : List String) (r1 : PanelRow) :
    ∃ r ∈ mergeRight rr rc r1, rowKey r = rowKey r1 := by
  simp only [mergeRight]
  split
  · exact ⟨_, List.mem_singleton_self _, rfl⟩
  · rename_i hne
    have hms : rr.filter (fun r2 => rowKey r2 = rowKey r1) ≠ [] := by
      intro hnil
      simp [hnil] at hne
    obtain ⟨m, hm⟩ := List.exists_mem_of_ne_nil _ hms
    exact ⟨_, List.mem_map_of_mem _ hm, rfl⟩

/-- Zero-filling changes no join keys. -/
lemma exists_key_fillZero (t : PanelDf) (k : String × String) :
    (∃ r ∈ (fillZero t).rows, rowKey r = k) ↔ (∃ r ∈ t.rows, rowKey r = k) := by
  simp only [fillZero, List.mem_map]
  constructor
  · rintro ⟨r, ⟨r0, hr0, rfl⟩, hk⟩
    exact ⟨r0, hr0, hk⟩
  · rintro ⟨r0, hr0, hk⟩
    exact ⟨_, ⟨r0, hr0, rfl⟩, hk⟩

/-- The outer merge covers exactly the union of the two tables' key sets. -/
lemma exists_key_mergeOuter (t1 t2 : PanelDf) (k : String × String) :
    (∃ r ∈ (mergeOuter t1 t2).rows, rowKey r = k) ↔
      (∃ r ∈ t1.rows, rowKey r = k) ∨ (∃ r ∈ t2.rows, rowKey r = k) := by
  constructor
  · rintro ⟨r, hr, hk⟩
    simp only [mergeOuter, List.mem_append, List.mem_flatMap, List.mem_map,
      List.mem_filter] at hr
    rcases hr with ⟨r1', ⟨r1, hr1, hren⟩, hrin⟩ | ⟨r2', ⟨⟨r2, hr2, hren⟩, -⟩, rfl⟩
    · left
      refine ⟨r1, hr1, ?_⟩
      have h1 := rowKey_of_mem_mergeRight _ _ _ _ hrin
      rw [← hk, h1, ← hren]
      rfl
    · right
      refine ⟨r2, hr2, ?_⟩
      rw [← hk, ← hren]
      rfl
  · intro h
    simp only [mergeOuter, List.mem_append, List.mem_flatMap, List.mem_map,
      List.mem_filter]
    rcases h with ⟨r1, hr1, hk⟩ | ⟨r2, hr2, hk⟩
    · obtain ⟨r, hrmem, hrk⟩ := exists_mem_mergeRight
        (t2.rows.map (fun r => { r with cells := renameCells r.cells t1.cols "_y" }))
        (t2.cols.map (fun c => if t1.cols.contains c then c ++ "_y" else c))
        { r1 with cells := renameCells r1.cells t2.cols "_x" }
      exact ⟨r, Or.inl ⟨_, ⟨r1, hr1, rfl⟩, hrmem⟩, by rw [hrk, ← hk]; rfl⟩
    · by_cases hex : ∃ r1 ∈ t1.rows, rowKey r1 = rowKey r2
      · obtain ⟨r1, hr1, hk1⟩ := hex
        obtain ⟨r, hrmem, hrk⟩ := exists_mem_mergeRight
          (t2.rows.map (fun r => { r with cells := renameCells r.cells t1.cols "_y" }))
          (t2.cols.map (fun c => if t1.cols.contains c then c ++ "_y" else c))
          { r1 with cells := renameCells r1.cells t2.cols "_x" }
        refine ⟨r, Or.inl ⟨_, ⟨r1, hr1, rfl⟩, hrmem⟩, ?_⟩
        rw [hrk, ← hk, ← hk1]
        rfl
      · refine ⟨_, Or.inr ⟨{ r2 with cells := renameCells r2.cells t1.cols "_y" },
          ⟨⟨r2, hr2, rfl⟩, ?_⟩, rfl⟩, by rw [← hk]; rfl⟩
        simp only [List.all_eq_true, List.mem_map]
        rintro r1' ⟨r1, hr1, rfl⟩
        have : rowKey r1 ≠ rowKey r2 := fun hcon => hex ⟨r1, hr1, hcon⟩
        simpa [rowKey] using this

/-- C4 counterexample: merging the claim's three per-expression tables, the
third of which reuses the value-column name `X`, does not produce a single
`X` column — pandas suffixes the overlapping names to `X_x`/`X_y` — so the
result is not the claimed two rows `{p1,d1,X:5,Y:7}` and `{p2,d2,X:3,Y:0}`. -/
theorem merge_repeated_column_counterexample :
    merge_expression_tables
      [⟨["X"], [⟨"p1", "d1", [("X", some 5)]⟩]⟩,
       ⟨["Y"], [⟨"p1", "d1", [("Y", some 7)]⟩]⟩,
       ⟨["X"], [⟨"p2", "d2", [("X", some 3)]⟩]⟩]
      = some ⟨["X_x", "Y", "X_y"],
          [⟨"p1", "d1", [("X_x", some 5), ("Y", some 7), ("X_y", some 0)]⟩,
           ⟨"p2", "d2", [("X_x", some 0), ("Y", some 0), ("X_y", some 3)]⟩]⟩ ∧
    ¬ (merge_expression_tables
      [⟨["X"], [⟨"p1", "d1", [("X", some 5)]⟩]⟩,
       ⟨["Y"], [⟨"p1", "d1", [("Y", some 7)]⟩]⟩,
       ⟨["X"], [⟨"p2", "d2", [("X", some 3)]⟩]⟩]
      = some ⟨["X", "Y"],
          [⟨"p1", "d1", [("X", some 5), ("Y", some 7)]⟩,
           ⟨"p2", "d2", [("X", some 3), ("Y", some 0)]⟩]⟩) := by
  decide

/-- C4 amended: per-expression tables are outer-joined pairwise on the group
keys and, after all expressions are merged, every absent cell is zero-filled;
the merged key set is the union of the inputs' key sets, every cell of the
zero-filled table is present, and on the claim's example with the third
table's column renamed apart (`Z`, since pandas suffixes repeated column
names instead of unioning them) the result is exactly the two rows
`{p1,d1,X:5,Y:7,Z:0}` and `{p2,d2,X:0,Y:0,Z:3}`. -/
theorem merge_tables_outer_join_zero_fill :
    (∀ t1 t2 : PanelDf, ∀ k : String × String,
      (∃ r ∈ (fillZero (mergeOuter t1 t2)).rows, rowKey r = k) ↔
        ((∃ r ∈ t1.rows, rowKey r = k) ∨ (∃ r ∈ t2.rows, rowKey r = k))) ∧
    (∀ t : PanelDf, ∀ r ∈ (fillZero t).rows, ∀ p ∈ r.cells, p.2.isSome = true) ∧
    merge_expression_tables
      [⟨["X"], [⟨"p1", "d1", [("X", some 5)]⟩]⟩,
       ⟨["Y"], [⟨"p1", "d1", [("Y", some 7)]⟩]⟩,
       ⟨["Z"], [⟨"p2", "d2", [("Z", some 3)]⟩]⟩]
      = some ⟨["X", "Y", "Z"],
          [⟨"p1", "d1", [("X", some 5), ("Y", some 7), ("Z", some 0)]⟩,
           ⟨"p2", "d2", [("X", some 0), ("Y", some 0), ("Z", some 3)]⟩]⟩ := by
  refine ⟨?_, ?_, by decide⟩
  · intro t1 t2 k
    rw [exists_key_fillZero]
    exact exists_key_mergeOuter t1 t2 k
  · intro t r hr p hp
    simp only [fillZero, List.mem_map] at hr
    obtain ⟨r0, -, rfl⟩ := hr
    simp only [List.mem_map] at hp
    obtain ⟨p0, -, rfl⟩ := hp
    rfl

/-- Witness for C4's amended theorem: the key-union equivalence and the
cell-totality fact instantiated at concrete tables. -/
theorem merge_tables_outer_join_zero_fill_witness :
    ((∃ r ∈ (fillZero (mergeOuter ⟨["X"], [⟨"p1", "d1", [("X", some 5)]⟩]⟩
        ⟨["Y"], [⟨"p2", "d2", [("Y", some 7)]⟩]⟩)).rows, rowKey r = ("p2", "d2")) ↔
      ((∃ r ∈ [(⟨"p1", "d1", [("X", some 5)]⟩ : PanelRow)], rowKey r = ("p2", "d2")) ∨
       (∃ r ∈ [(⟨"p2", "d2", [("Y", some 7)]⟩ : PanelRow)], rowKey r = ("p2", "d2")))) ∧
    (("X", (some 0 : Option Rat)).2.isSome = true) :=
  ⟨merge_tables_outer_join_zero_fill.1 ⟨["X"], [⟨"p1", "d1", [("X", some 5)]⟩]⟩
      ⟨["Y"], [⟨"p2", "d2", [("Y", some 7)]⟩]⟩ ("p2", "d2"),
   merge_tables_outer_join_zero_fill.2.1 ⟨["X"], [⟨"p1", "d1", [("X", none)]⟩]⟩
      ⟨"p1", "d1", [("X", some 0)]⟩ (by decide) ("X", some 0) (by decide)⟩

/-- A `filterMap` whose function is total on the list is a `map`. -/
lemma filterMap_eq_map_of_forall {α β : Type} (f : α → Option β) (g : α → β) :
    ∀ l : List α, (∀ x ∈ l, f x = some (g x)) → l.filterMap f = l.map g
  | [], _ => rfl
  | x :: xs, h => by
    rw [List.filterMap_cons, h x (List.mem_cons_self x xs), List.map_cons,
      filterMap_eq_map_of_forall f g xs (fun y hy => h y (List.mem_cons_of_mem _ hy))]

/-- C5: the projector names its value column as asked; with at least one
series and every series carrying samples it emits exactly one row per series
(labels defaulting to "unknown", value from the last sample); and when no
series had data it emits the single zero row for `{unknown, unknown}`. -/
theorem prometheus_result_projection (results : PromResult) (col : String) :
    (prometheus_result_to_df results col).valueCol = col ∧
    (results.result ≠ [] → (∀ r ∈ results.result, r.values ≠ []) →
      (prometheus_result_to_df results col).rows = results.result.map (fun r =>
        { project := labelGet r.metric "project" "unknown",
          department := labelGet r.metric "department" "unknown",
          value := ((r.values.getLast?).getD (0, 0)).2 })) ∧
    ((∀ r ∈ results.result, r.values = []) →
      (prometheus_result_to_df results col).rows
        = [{ project := "unknown", department := "unknown", value := 0 }]) := by
  refine ⟨?_, ?_, ?_⟩
  · simp only [prometheus_result_to_df]
    split <;> rfl
  · intro hne hvals
    have hmap : results.result.filterMap seriesToRow = results.result.map (fun r =>
        { project := labelGet r.metric "project" "unknown",
          department := labelGet r.metric "department" "unknown",
          value := ((r.values.getLast?).getD (0, 0)).2 }) := by
      refine filterMap_eq_map_of_forall _ _ _ (fun r hr => ?_)
      rcases hl : r.values.getLast? with - | s
      · exact absurd (List.getLast?_eq_none_iff.mp hl) (hvals r hr)
      · simp [seriesToRow, hl]
    simp only [prometheus_result_to_df, hmap]
    rw [if_neg]
    simp only [List.isEmpty_eq_true, List.map_eq_nil_iff]
    exact hne
  · intro hall
    have hnil : results.result.filterMap seriesToRow = [] := by
      rw [List.filterMap_eq_nil_iff]
      intro r hr
      simp [seriesToRow, hall r hr]
    simp [prometheus_result_to_df, hnil]

/-- Witness for C5 at a one-series response and at an empty response. -/
theorem prometheus_result_projection_witness :
    (prometheus_result_to_df ⟨[⟨[("project", "p"), ("department", "d")], [(0, 5)]⟩]⟩ "c").rows
      = [{ project := "p", department := "d", value := 5 }] ∧
    (prometheus_result_to_df ⟨[]⟩ "c").rows
      = [{ project := "unknown", department := "unknown", value := 0 }] := by
  constructor
  · rw [(prometheus_result_projection ⟨[⟨[("project", "p"), ("department", "d")], [(0, 5)]⟩]⟩
      "c").2.1 (by decide) (by decide)]
    decide
  · exact (prometheus_result_projection ⟨[]⟩ "c").2.2 (by decide)

/-- The claim C3 rule mapping: `gpu_hours = raw_gpu_seconds / 3600` with
`raw_gpu_seconds` a dependency-free (raw-level) rule. -/
def rulesC3 : List (String × String) :=
  [("gpu_hours", "raw_gpu_seconds / 3600"),
   ("raw_gpu_seconds", "sum by (project, department) (runai_gpu_seconds_total)")]

/-- C3: for every backend (in particular one with zero series for `gpu_hours`
itself — the recomputation never queries the rule name directly once it has
dependencies), recomputing `gpu_hours` resolves `raw_gpu_seconds` first and
returns its projected table (one row per raw series, last sample) with every
value divided by 3600, in a value column named `gpu_hours`. -/
theorem recompute_divides_raw_by_scalar (backend : String → PromResult) :
    recompute_fuel rulesC3 backend 2 "gpu_hours"
      = some (Except.ok
          { valueCol := "gpu_hours",
            rows := (prometheus_result_to_df
                (backend "sum by (project, department) (runai_gpu_seconds_total)")
                "raw_gpu_seconds").rows.map
              (fun r => { r with value := r.value / 3600 }) }) := by
  rfl

/-- A regex word boundary at a split point compares the last character before
the split with the first character after it. -/
lemma boundary_split (pre rest : List Char) :
    boundaryAt (pre ++ rest) pre.length = (wordOpt pre.getLast? != wordOpt rest.head?) := by
  unfold boundaryAt
  have hr : (pre ++ rest)[pre.length]? = rest.head? := by
    rw [List.getElem?_append_right (le_refl _), Nat.sub_self]
    exact (List.head?_eq_getElem? rest).symm
  rw [hr]
  by_cases hp : pre = []
  · subst hp; simp
  · have hl : pre.length ≠ 0 := by
      simpa using (List.length_pos.mpr hp).ne'
    rw [if_neg hl,
      List.getElem?_append_left (by omega : pre.length - 1 < pre.length),
      ← List.getLast?_eq_getElem? pre]

/-- The boundary-wrapped literal pattern matches at the split position of a
decomposition exactly when both split points separate word from non-word. -/
lemma matchWordAt_split (pre pat post : List Char) :
    matchWordAt (pre ++ pat ++ post) pat pre.length
      = ((wordOpt pre.getLast? != wordOpt ((pat ++ post).head?)) &&
         (wordOpt ((pre ++ pat).getLast?) != wordOpt post.head?)) := by
  unfold matchWordAt
  have h1 : ((pre ++ pat ++ post).drop pre.length).take pat.length = pat := by
    rw [List.append_assoc, List.drop_left, List.take_left]
  have hb1 : boundaryAt (pre ++ pat ++ post) pre.length
      = (wordOpt pre.getLast? != wordOpt ((pat ++ post).head?)) := by
    rw [List.append_assoc]
    exact boundary_split pre (pat ++ post)
  have hb2 : boundaryAt (pre ++ pat ++ post) (pre.length + pat.length)
      = (wordOpt ((pre ++ pat).getLast?) != wordOpt post.head?) := by
    have hlen : pre.length + pat.length = (pre ++ pat).length := (List.length_append _ _).symm
    rw [hlen]
    exact boundary_split (pre ++ pat) post
  rw [h1, hb1, hb2]
  simp

/-- Correctness of the word-boundary search: it succeeds exactly on the
boundary-delimited decompositions of the scanned string. -/
lemma searchWord_eq_true_iff (pat s : List Char) :
    searchWord pat s = true ↔
      ∃ pre post, s = pre ++ pat ++ post ∧
        (wordOpt pre.getLast? ≠ wordOpt ((pat ++ post).head?)) ∧
        (wordOpt ((pre ++ pat).getLast?) ≠ wordOpt post.head?) := by
  unfold searchWord
  rw [List.any_eq_true]
  constructor
  · rintro ⟨i, hi, hmatch⟩
    rw [List.mem_range] at hi
    unfold matchWordAt at hmatch
    simp only [Bool.and_eq_true, beq_iff_eq] at hmatch
    obtain ⟨⟨htake, hb1⟩, hb2⟩ := hmatch
    have hplen : pat.length ≤ s.length - i := by
      have hlen := congrArg List.length htake
      simp only [List.length_take, List.length_drop] at hlen
      omega
    have hile : i ≤ s.length := by
      rcases le_or_lt i s.length with h | h
      · exact h
      · exfalso
        have hiz : i ≠ 0 := by omega
        have h1 : s[i]? = none := List.getElem?_eq_none (by omega)
        have h2 : s[i - 1]? = none := List.getElem?_eq_none (by omega)
        unfold boundaryAt at hb1
        rw [if_neg hiz, h1, h2] at hb1
        exact absurd hb1 (by decide)
    have hdd : s.drop i = pat ++ s.drop (i + pat.length) := by
      conv_lhs => rw [← List.take_append_drop pat.length (s.drop i)]
      rw [htake, List.drop_drop]
    have hsplit : s = s.take i ++ pat ++ s.drop (i + pat.length) := by
      calc s = s.take i ++ s.drop i := (List.take_append_drop i s).symm
        _ = s.take i ++ (pat ++ s.drop (i + pat.length)) := by rw [hdd]
        _ = s.take i ++ pat ++ s.drop (i + pat.length) := (List.append_assoc _ _ _).symm
    have hlenpre : (s.take i).length = i := by
      simp only [List.length_take]
      omega
    refine ⟨s.take i, s.drop (i + pat.length), hsplit, ?_, ?_⟩
    · rw [← bne_iff_ne]
      have hb := boundary_split (s.take i) (pat ++ s.drop (i + pat.length))
      rw [hlenpre, ← List.append_assoc, ← hsplit] at hb
      rw [← hb]
      exact hb1
    · rw [← bne_iff_ne]
      have hb := boundary_split (s.take i ++ pat) (s.drop (i + pat.length))
      rw [← hsplit, List.length_append, hlenpre] at hb
      rw [← hb]
      exact hb2
  · rintro ⟨pre, post, rfl, hb1, hb2⟩
    refine ⟨pre.length, ?_, ?_⟩
    · rw [List.mem_range]
      simp only [List.length_append]
      omega
    · rw [matchWordAt_split]
      rw [← bne_iff_ne] at hb1 hb2
      rw [hb1, hb2]
      rfl

/-- C8: dependency discovery reports a rule name as a dependency of an
expression exactly when the name is a key of the rule mapping and occurs in
the expression text as an exact word (word-boundary delimited); in particular
the rule `cpu` is not reported for an expression containing only `cpu_total`,
while `cpu_total` itself is. -/
theorem find_dependencies_exact_word :
    (∀ (rules : List (String × String)) (expr rule : String),
      rule ∈ find_dependencies rules expr ↔
        rule ∈ rules.map Prod.fst ∧ occursAsWord rule expr) ∧
    find_dependencies [("cpu", "e1"), ("cpu_total", "e2")] "cpu_total + 1"
      = ["cpu_total"] := by
  constructor
  · intro rules expr rule
    unfold find_dependencies occursAsWord
    rw [List.mem_filter]
    exact and_congr Iff.rfl (searchWord_eq_true_iff rule.data expr.data)
  · decide

/-- Number of distinct rule names not yet visited: the quantity the visited-set
guard strictly decreases at every level of `backfill_rule_recursive`. -/
def unvisitedCount (rules : List (String × String)) (visited : List String) : Nat :=
  ((rules.map Prod.fst).toFinset.filter (fun k => k ∉ visited)).card

/-- A successful lookup means the key is among the mapping's keys. -/
lemma lookup_some_mem_keys {rules : List (String × String)} {k v : String}
    (h : rules.lookup k = some v) : k ∈ rules.map Prod.fst := by
  induction rules with
  | nil => simp [List.lookup] at h
  | cons p rest ih =>
    simp only [List.lookup] at h
    split at h
    · rename_i heq
      simp only [beq_iff_eq] at heq
      simp [heq]
    · simp [ih h]

/-- Growing the visited set cannot increase the unvisited count. -/
lemma unvisited_mono {rules : List (String × String)} {v1 v2 : List String}
    (h : ∀ x ∈ v1, x ∈ v2) :
    unvisitedCount rules v2 ≤ unvisitedCount rules v1 := by
  apply Finset.card_le_card
  intro k hk
  simp only [Finset.mem_filter] at hk ⊢
  exact ⟨hk.1, fun hmem => hk.2 (h k hmem)⟩

/-- Visiting a not-yet-visited rule name strictly decreases the unvisited
count. -/
lemma unvisited_lt {rules : List (String × String)} {record : String}
    {visited : List String}
    (hmem : record ∈ rules.map Prod.fst) (hnv : record ∉ visited) :
    unvisitedCount rules (record :: visited) < unvisitedCount rules visited := by
  have hsub : (rules.map Prod.fst).toFinset.filter (fun k => k ∉ record :: visited)
      ⊆ ((rules.map Prod.fst).toFinset.filter (fun k => k ∉ visited)).erase record := by
    intro k hk
    simp only [Finset.mem_filter, List.mem_cons, Finset.mem_erase] at hk ⊢
    push_neg at hk
    exact ⟨hk.2.1, hk.1, hk.2.2⟩
  apply Nat.lt_of_le_of_lt (Finset.card_le_card hsub)
  apply Finset.card_erase_lt_of_mem
  simp only [Finset.mem_filter, List.mem_toFinset]
  exact ⟨hmem, hnv⟩

/-- Termination of `backfill_rule_recursive`: with any recursion-depth bound
exceeding the number of unvisited rule names, the call returns (the visited
set only growing), on every rule mapping — cyclic ones included. -/
theorem backfill_total (rules : List (String × String)) (backend : String → PromResult) :
    ∀ (fuel : Nat) (record : String) (visited : List String),
      unvisitedCount rules visited < fuel →
      ∃ res vis, backfill_fuel rules backend fuel record visited = some (res, vis) ∧
        ∀ x ∈ visited, x ∈ vis := by
  intro fuel
  induction fuel with
  | zero => exact fun record visited h => absurd h (Nat.not_lt_zero _)
  | succ fuel ih =>
    intro record visited hcount
    by_cases hv : visited.contains record
    · refine ⟨emptyProm, visited, ?_, fun x hx => hx⟩
      simp only [backfill_fuel]
      rw [if_pos hv]
    · cases hlk : rules.lookup record with
      | none =>
        refine ⟨emptyProm, visited, ?_, fun x hx => hx⟩
        simp only [backfill_fuel]
        rw [if_neg hv, hlk]
      | some expr =>
        have hmemkeys : record ∈ rules.map Prod.fst := lookup_some_mem_keys hlk
        have hnv : record ∉ visited := by simpa using hv
        have hlt : unvisitedCount rules (record :: visited) < fuel := by
          have := unvisited_lt hmemkeys hnv
          omega
        have hfold : ∀ (deps : List String) (v : List String),
            (∀ x ∈ record :: visited, x ∈ v) →
            ∃ vfinal, List.foldl (fun vOpt d =>
                match vOpt with
                | none => none
                | some v =>
                  match backfill_fuel rules backend fuel d v with
                  | none => none
                  | some (_, v') => some v') (some v) deps = some vfinal ∧
              ∀ x ∈ record :: visited, x ∈ vfinal := by
          intro deps
          induction deps with
          | nil => exact fun v hvsub => ⟨v, rfl, hvsub⟩
          | cons d ds ihd =>
            intro v hvsub
            have hvcount : unvisitedCount rules v < fuel :=
              lt_of_le_of_lt (unvisited_mono hvsub) hlt
            obtain ⟨res, v', heq, hsub'⟩ := ih d v hvcount
            simp only [List.foldl_cons, heq]
            exact ihd v' (fun x hx => hsub' x (hvsub x hx))
        obtain ⟨vfinal, hfeq, hfs⟩ :=
          hfold ((promTokens expr.data.length expr.data).filter
            (fun tok => (rules.lookup tok).isSome && tok != record))
            (record :: visited) (fun x hx => hx)
        refine ⟨backfill_rule rules backend record, vfinal, ?_,
          fun x hx => hfs x (List.mem_cons_of_mem _ hx)⟩
        simp only [backfill_fuel]
        rw [if_neg hv]
        simp only [hlk, hfeq]

/-- On the cyclic mapping A→B→A, `recompute_rule_for_timeframe` (which threads
no visited set) never returns, at any recursion depth. -/
lemma recompute_cycle_diverges :
    ∀ fuel : Nat,
      recompute_fuel [("A", "B"), ("B", "A")] (fun _ => emptyProm) fuel "A" = none ∧
      recompute_fuel [("A", "B"), ("B", "A")] (fun _ => emptyProm) fuel "B" = none := by
  intro fuel
  induction fuel with
  | zero => exact ⟨rfl, rfl⟩
  | succ fuel ih =>
    have hda : find_dependencies [("A", "B"), ("B", "A")] "B" = ["B"] := by decide
    have hdb : find_dependencies [("A", "B"), ("B", "A")] "A" = ["A"] := by decide
    have hla : List.lookup "A" [("A", "B"), ("B", "A")] = some "B" := by decide
    have hlb : List.lookup "B" [("A", "B"), ("B", "A")] = some "A" := by decide
    constructor
    · simp only [recompute_fuel, hla, hda]
      simp only [List.map_cons, List.map_nil, ih.2, seqExcept]
      rfl
    · simp only [recompute_fuel, hlb, hdb]
      simp only [List.map_cons, List.map_nil, ih.1, seqExcept]
      rfl

/-- C1 counterexample: on the cyclic mapping A→B→A (with a dataless backend),
`recompute_rule_for_timeframe("A")` does not terminate: it returns within no
finite recursion depth, contrary to the claim that it terminates with an
empty or zero-valued result. -/
theorem recompute_cycle_counterexample :
    ¬ ∃ (fuel : Nat) (out : Except Unit RuleDf),
      recompute_fuel [("A", "B"), ("B", "A")] (fun _ => emptyProm) fuel "A" = some out := by
  rintro ⟨fuel, out, heq⟩
  rw [(recompute_cycle_diverges fuel).1] at heq
  exact Option.noConfusion heq

/-- C1 amended: `backfill_rule_recursive` terminates on every rule mapping —
cyclic ones included — once the recursion-depth bound exceeds the number of
unvisited rule names; a revisited rule is cut off by the visited-set guard,
which returns the empty result `{"data": {"result": []}}` without raising;
and on the A→B→A cycle with a dataless backend, resolving `A` from an empty
visited set returns the empty result. (`recompute_rule_for_timeframe`, by
contrast, does not terminate on a cycle.) -/
theorem backfill_cycle_guard :
    (∀ (rules : List (String × String)) (backend : String → PromResult)
        (fuel : Nat) (record : String) (visited : List String),
      unvisitedCount rules visited < fuel →
      (backfill_fuel rules backend fuel record visited).isSome = true) ∧
    (∀ (rules : List (String × String)) (backend : String → PromResult)
        (fuel : Nat) (record : String) (visited : List String),
      visited.contains record = true →
      backfill_fuel rules backend (fuel + 1) record visited = some (emptyProm, visited)) ∧
    backfill_fuel [("A", "B"), ("B", "A")] (fun _ => emptyProm) 3 "A" []
      = some (emptyProm, ["B", "A"]) := by
  refine ⟨?_, ?_, by decide⟩
  · intro rules backend fuel record visited h
    obtain ⟨res, vis, heq, -⟩ := backfill_total rules backend fuel record visited h
    rw [heq]
    rfl
  · intro rules backend fuel record visited h
    simp only [backfill_fuel]
    rw [if_pos h]

/-- Witness for C1's amended theorem: the termination bound and the cycle
guard instantiated on the concrete two-rule cycle. -/
theorem backfill_cycle_guard_witness :
    (backfill_fuel [("A", "B"), ("B", "A")] (fun _ => emptyProm) 3 "A" []).isSome = true ∧
    backfill_fuel [("A", "B"), ("B", "A")] (fun _ => emptyProm) 1 "A" ["A"]
      = some (emptyProm, ["A"]) :=
  ⟨backfill_cycle_guard.1 [("A", "B"), ("B", "A")] (fun _ => emptyProm) 3 "A" []
      (by decide),
   backfill_cycle_guard.2.1 [("A", "B"), ("B", "A")] (fun _ => emptyProm) 0 "A" ["A"]
      (by decide)⟩
